import Mathlib

/-!
Verification of the Medusa pricing module's price-calculation engine.

The repository sources provide the relational schema of the pricing tables
(the MikroORM snapshot) and the documentation of the `calculatePrices`
selection algorithm, together with the literal JavaScript snippet that
builds the returned price object.  The data model and the returned-object
construction below are translated from those sources; the selection
algorithm itself is modelled from the specification, as its TypeScript
implementation is not among the sources.
-/

namespace Pricing

/-- A row of the `rule_type` table (schema snapshot, table `rule_type`):
id, name, a `rule_attribute` key matched against context keys, and a
`default_priority` tie-break weight defaulting to 0. -/
structure RuleTypeRow where
  id : String
  name : String
  rule_attribute : String
  default_priority : Int
deriving DecidableEq

/-- A `price_rule` row attached to one price-set money amount: one
(rule_attribute, value, priority) constraint.  The schema stores a
`rule_type_id`; here the rule carries its rule type's `rule_attribute`
directly (the join is materialized), and `priority` defaults to 0. -/
structure PriceRule where
  rule_attribute : String
  value : String
  priority : Int
deriving DecidableEq

/-- The `price_list.status` enum of the schema: `active` or `draft`. -/
inductive PLStatus where
  | active : PLStatus
  | draft : PLStatus
deriving DecidableEq

/-- The `price_list.type` enum of the schema: `sale` or `override`. -/
inductive PLType where
  | sale : PLType
  | override : PLType
deriving DecidableEq

/-- A `price_list` row joined with its `price_list_rule` /
`price_list_rule_value` rows: each list-level rule is a
(rule_attribute, allowed values) pair with OR semantics inside the value
set and AND semantics across rules. -/
structure PriceList where
  id : String
  status : PLStatus
  type : PLType
  starts_at : Option Int
  ends_at : Option Int
  rules : List (String × List String)
deriving DecidableEq

/-- A `price_set_money_amount` row joined with its `money_amount` and its
`price_rule` rows: currency, numeric amount, optional quantity bounds, an
optional owning price list (`price_list_id` nullable in the schema), and
the amount-level price rules. -/
structure PSMA where
  id : String
  currency_code : String
  amount : Int
  min_quantity : Option Int
  max_quantity : Option Int
  price_list : Option PriceList
  rules : List PriceRule
deriving DecidableEq

/-- The calculation context: a mandatory `currency_code` plus zero or more
`rule_attribute` to value entries (the non-currency context keys). -/
structure PricingContext where
  currency_code : String
  rules : List (String × String)
deriving DecidableEq

/-- Modelled from the spec: the Rule Matcher's single-constraint check
(the TypeScript implementation of `calculatePrices` is not among the
sources).  A constraint is satisfied if the context contains the
attribute and its value is a member of the allowed-value set. -/
def ruleSatisfied (ctxRules : List (String × String)) (attr : String)
    (allowed : List String) : Bool :=
  match ctxRules.lookup attr with
  | some v => allowed.contains v
  | none => false

/-- Modelled from the spec: `fullMatch` is true iff every constraint is
satisfied by the context (pure AND across constraints). -/
def fullMatch (ctxRules : List (String × String))
    (constraints : List (String × List String)) : Bool :=
  constraints.all fun c => ruleSatisfied ctxRules c.1 c.2

/-- Modelled from the spec: whether one amount-level `PriceRule` (a
singleton allowed-value set) is satisfied by the context. -/
def priceRuleMatched (ctxRules : List (String × String)) (r : PriceRule) : Bool :=
  ctxRules.lookup r.rule_attribute = some r.value

/-- Modelled from the spec: the number of an amount's price rules
satisfied by the context, used for partial-match ranking. -/
def matchedRuleCount (ctxRules : List (String × String)) (p : PSMA) : Nat :=
  (p.rules.filter (priceRuleMatched ctxRules)).length

/-- Modelled from the spec: the Price List Validator.  A price list is
usable iff its status is `active`, the evaluation instant lies between
its optional start and end timestamps, and the Rule Matcher reports a
full match of its list rules against the context. -/
def isValid (pl : PriceList) (ctx : PricingContext) (now : Int) : Bool :=
  decide (pl.status = PLStatus.active) &&
  (match pl.starts_at with | some s => decide (s ≤ now) | none => true) &&
  (match pl.ends_at with | some e => decide (now ≤ e) | none => true) &&
  fullMatch ctx.rules pl.rules

/-- Generic best-element selection: fold over the list keeping the current
best and replacing it only when the new element is strictly better, so
ties are broken stably by insertion order; `none` on the empty list. -/
def pickBy {α : Type} (f : α → α → Bool) : List α → Option α
  | [] => none
  | p :: ps => some (ps.foldl (fun best q => cond (f q best) q best) p)

/-- Strictly-lower-amount comparison used for calculated-price selection. -/
def amountLt (q best : PSMA) : Bool :=
  decide (q.amount < best.amount)

/-- Modelled from the spec: the candidates of calculated-price selection,
the price set's money amounts whose currency equals the context currency
and that belong to a price list that is valid for the context. -/
def calcCandidates (psmas : List PSMA) (ctx : PricingContext) (now : Int) :
    List PSMA :=
  psmas.filter fun p =>
    decide (p.currency_code = ctx.currency_code) &&
    (match p.price_list with
     | some pl => isValid pl ctx now
     | none => false)

/-- Modelled from the spec: the Calculated Price Selector picks, among the
valid-price-list candidates, the money amount with the numerically lowest
amount, ties broken stably by insertion order. -/
def selectCalculated (psmas : List PSMA) (ctx : PricingContext) (now : Int) :
    Option PSMA :=
  pickBy amountLt (calcCandidates psmas ctx now)

/-- Modelled from the spec: the candidates of original-price selection,
the standalone money amounts (no price list) with matching currency. -/
def origCandidates (psmas : List PSMA) (ctx : PricingContext) : List PSMA :=
  psmas.filter fun p =>
    decide (p.currency_code = ctx.currency_code) && p.price_list.isNone

/-- Modelled from the spec: exact rule-set match, the amount's
(rule_attribute, value) pairs are exactly the non-currency context
entries: same count, every rule pair a context entry, every context entry
a rule pair. -/
def exactMatch (ctxRules : List (String × String)) (p : PSMA) : Bool :=
  let pairs := p.rules.map fun r => (r.rule_attribute, r.value)
  decide (pairs.length = ctxRules.length) &&
  pairs.all (fun e => ctxRules.any fun x => decide (x = e)) &&
  ctxRules.all (fun e => pairs.any fun x => decide (x = e))

/-- Modelled from the spec: the `default_priority` of the rule type whose
`rule_attribute` equals the given attribute, 0 when none is found. -/
def defaultPriorityOf (ruleTypes : List RuleTypeRow) (attr : String) : Int :=
  match ruleTypes.find? (fun rt => rt.rule_attribute = attr) with
  | some rt => rt.default_priority
  | none => 0

/-- Modelled from the spec: the maximal `priority` among the amount's
price rules satisfied by the context (0 when none). -/
def maxMatchedPriority (ctxRules : List (String × String)) (p : PSMA) : Int :=
  (p.rules.filter (priceRuleMatched ctxRules)).foldl
    (fun m r => max m r.priority) 0

/-- Modelled from the spec: the maximal rule-type `default_priority` among
the amount's price rules satisfied by the context (0 when none). -/
def maxMatchedDefaultPriority (ruleTypes : List RuleTypeRow)
    (ctxRules : List (String × String)) (p : PSMA) : Int :=
  (p.rules.filter (priceRuleMatched ctxRules)).foldl
    (fun m r => max m (defaultPriorityOf ruleTypes r.rule_attribute)) 0

/-- Modelled from the spec: the ranking key of the partial-match policy,
`(matchedRuleCount, maxPriceRulePriority, maxRuleTypeDefaultPriority)`,
compared lexicographically descending. -/
def rankKey (ruleTypes : List RuleTypeRow) (ctxRules : List (String × String))
    (p : PSMA) : Nat × Int × Int :=
  (matchedRuleCount ctxRules p, maxMatchedPriority ctxRules p,
    maxMatchedDefaultPriority ruleTypes ctxRules p)

/-- Strict lexicographic "ranked above" order on ranking keys: more
matched rules first, then higher rule priority, then higher rule-type
default priority. -/
def keyLex (a b : Nat × Int × Int) : Prop :=
  b.1 < a.1 ∨ (a.1 = b.1 ∧ (b.2.1 < a.2.1 ∨ (a.2.1 = b.2.1 ∧ b.2.2 < a.2.2)))

instance (a b : Nat × Int × Int) : Decidable (keyLex a b) := by
  unfold keyLex
  exact inferInstance

/-- Whether the first amount is ranked strictly above the second by the
partial-match ranking tuple. -/
def rankBetter (ruleTypes : List RuleTypeRow)
    (ctxRules : List (String × String)) (q best : PSMA) : Bool :=
  decide (keyLex (rankKey ruleTypes ctxRules q) (rankKey ruleTypes ctxRules best))

/-- Modelled from the spec: the Original Price Selector's policy over the
standalone candidates, driven by the non-currency context entries.
Empty context rules: pick the default (zero-rule) amount.  Otherwise an
exact rule-set match wins; otherwise candidates with zero matched rules
are discarded and the survivor with the best ranking tuple is picked,
ties broken stably by insertion order. -/
def selectOriginalAux (ruleTypes : List RuleTypeRow) (cands : List PSMA) :
    List (String × String) → Option PSMA
  | [] => cands.find? fun p => p.rules.isEmpty
  | k :: rest =>
    match cands.find? (exactMatch (k :: rest)) with
    | some p => some p
    | none =>
      pickBy (rankBetter ruleTypes (k :: rest))
        (cands.filter fun p => decide (0 < matchedRuleCount (k :: rest) p))

/-- Modelled from the spec: the Original Price Selector (the TypeScript
implementation of `calculatePrices` is not among the sources). -/
def selectOriginal (ruleTypes : List RuleTypeRow) (psmas : List PSMA)
    (ctx : PricingContext) : Option PSMA :=
  selectOriginalAux ruleTypes (origCandidates psmas ctx) ctx.rules

/-- Modelled from the spec: the assembled calculated price, the Calculated
Price Selector's result with the original price substituted when absent. -/
def assembledCalculated (ruleTypes : List RuleTypeRow) (psmas : List PSMA)
    (ctx : PricingContext) (now : Int) : Option PSMA :=
  match selectCalculated psmas ctx now with
  | some c => some c
  | none => selectOriginal ruleTypes psmas ctx

/-- Modelled from the spec: the assembled original price, forced to the
calculated price when the calculated price's list has type `override`. -/
def assembledOriginal (ruleTypes : List RuleTypeRow) (psmas : List PSMA)
    (ctx : PricingContext) (now : Int) : Option PSMA :=
  match assembledCalculated ruleTypes psmas ctx now with
  | some c =>
    match c.price_list with
    | some pl =>
      if pl.type = PLType.override then some c
      else selectOriginal ruleTypes psmas ctx
    | none => selectOriginal ruleTypes psmas ctx
  | none => selectOriginal ruleTypes psmas ctx

/-- The price object returned per price set, with the fields of the
returned-object construction in the sources (`calculated_price` and
`original_price` sub-objects flattened into prefixed fields). -/
structure PriceResult where
  id : String
  is_calculated_price_price_list : Bool
  calculated_amount : Option Int
  is_original_price_price_list : Bool
  original_amount : Option Int
  currency_code : Option String
  calculated_money_amount_id : Option String
  calculated_price_list_id : Option String
  calculated_price_list_type : Option PLType
  calculated_min_quantity : Option Int
  calculated_max_quantity : Option Int
  original_money_amount_id : Option String
  original_price_list_id : Option String
  original_price_list_type : Option PLType
  original_min_quantity : Option Int
  original_max_quantity : Option Int
deriving DecidableEq

/-- The JavaScript idiom of the returned-object construction in the
sources applied to a numeric field, as in
`parseInt(calculatedPrice?.amount || "") || null`: an absent value gives
`null` (`undefined || ""` parses to `NaN`), the number 0 is falsy and
collapses to `null` the same way, and any other integer is kept. -/
def jsNumOrNull : Option Int → Option Int
  | none => none
  | some v => if v = 0 then none else some v

/-- The JavaScript idiom of the returned-object construction in the
sources applied to a string field, as in `calculatedPrice?.id || null`:
an absent value gives `null` and the empty string is falsy and collapses
to `null`. -/
def jsStrOrNull : Option String → Option String
  | none => none
  | some s => if s = "" then none else some s

/-- The returned price object for one price set, built from the two
assembled selections exactly as the returned-object construction in the
sources does, via the `jsNumOrNull` / `jsStrOrNull` idioms. -/
def assemble (ruleTypes : List RuleTypeRow) (psmas : List PSMA)
    (psId : String) (ctx : PricingContext) (now : Int) : PriceResult :=
  let calculated := assembledCalculated ruleTypes psmas ctx now
  let original := assembledOriginal ruleTypes psmas ctx now
  { id := psId
    is_calculated_price_price_list :=
      (jsStrOrNull (calculated.bind fun c => c.price_list.map PriceList.id)).isSome
    calculated_amount := jsNumOrNull (calculated.map PSMA.amount)
    is_original_price_price_list :=
      (jsStrOrNull (original.bind fun c => c.price_list.map PriceList.id)).isSome
    original_amount := jsNumOrNull (original.map PSMA.amount)
    currency_code := jsStrOrNull (calculated.map PSMA.currency_code)
    calculated_money_amount_id := jsStrOrNull (calculated.map PSMA.id)
    calculated_price_list_id :=
      jsStrOrNull (calculated.bind fun c => c.price_list.map PriceList.id)
    calculated_price_list_type := calculated.bind fun c => c.price_list.map PriceList.type
    calculated_min_quantity := jsNumOrNull (calculated.bind PSMA.min_quantity)
    calculated_max_quantity := jsNumOrNull (calculated.bind PSMA.max_quantity)
    original_money_amount_id := jsStrOrNull (original.map PSMA.id)
    original_price_list_id :=
      jsStrOrNull (original.bind fun c => c.price_list.map PriceList.id)
    original_price_list_type := original.bind fun c => c.price_list.map PriceList.type
    original_min_quantity := jsNumOrNull (original.bind PSMA.min_quantity)
    original_max_quantity := jsNumOrNull (original.bind PSMA.max_quantity) }

/-- Modelled from the spec: the batch call.  The snapshot maps price-set
ids to their materialized money amounts; each requested id is resolved
independently, in request order, an id with no resolvable data being
treated as a price set with no money amounts. -/
def calculatePrices (ruleTypes : List RuleTypeRow)
    (db : List (String × List PSMA)) (ids : List String)
    (ctx : PricingContext) (now : Int) : List PriceResult :=
  ids.map fun psId => assemble ruleTypes ((db.lookup psId).getD []) psId ctx now

/-- Whether a price result has every calculated/original field absent
(the empty result emitted for a price-set id with no resolvable data). -/
def allAbsent (r : PriceResult) : Bool :=
  !r.is_calculated_price_price_list && r.calculated_amount.isNone &&
  !r.is_original_price_price_list && r.original_amount.isNone &&
  r.currency_code.isNone && r.calculated_money_amount_id.isNone &&
  r.calculated_price_list_id.isNone && r.calculated_price_list_type.isNone &&
  r.calculated_min_quantity.isNone && r.calculated_max_quantity.isNone &&
  r.original_money_amount_id.isNone && r.original_price_list_id.isNone &&
  r.original_price_list_type.isNone && r.original_min_quantity.isNone &&
  r.original_max_quantity.isNone

/-- An index declaration of the schema snapshot: key name, indexed
columns, and the composite / primary / unique flags. -/
structure IndexDecl where
  keyName : String
  columnNames : List String
  composite : Bool
  primary : Bool
  unique : Bool
deriving DecidableEq

/-- The indexes declared for the `rule_type` table in the schema
snapshot: a non-unique index on `rule_attribute` and the primary key on
`id`. -/
def ruleTypeIndexes : List IndexDecl :=
  [ { keyName := "IDX_rule_type_rule_attribute"
      columnNames := ["rule_attribute"]
      composite := false
      primary := false
      unique := false }
  , { keyName := "rule_type_pkey"
      columnNames := ["id"]
      composite := false
      primary := true
      unique := true } ]

/-- The projection of a `rule_type` row on one of its columns, used to
evaluate the uniqueness constraints its indexes declare. -/
def ruleTypeCol (r : RuleTypeRow) (col : String) : String :=
  if col = "id" then r.id
  else if col = "name" then r.name
  else if col = "rule_attribute" then r.rule_attribute
  else toString r.default_priority

/-- Whether a snapshot of `rule_type` rows satisfies every uniqueness
constraint the schema declares for the table: for each index with
`unique = true`, no two rows agree on all its columns. -/
def ruleTypeSchemaValid (rows : List RuleTypeRow) : Bool :=
  ruleTypeIndexes.all fun idx =>
    !idx.unique ||
      decide (List.Pairwise
        (fun a b =>
          idx.columnNames.map (ruleTypeCol a) ≠ idx.columnNames.map (ruleTypeCol b))
        rows)

lemma pickBy_foldl_mem {α : Type} (f : α → α → Bool) (ps : List α) (p : α) :
    ps.foldl (fun best q => cond (f q best) q best) p = p ∨
    ps.foldl (fun best q => cond (f q best) q best) p ∈ ps := by
  induction ps generalizing p with
  | nil => exact Or.inl rfl
  | cons q qs ih =>
    simp only [List.foldl_cons]
    rcases ih (cond (f q p) q p) with h | h
    · rw [h]
      cases hfq : f q p
      · simp
      · simp
    · exact Or.inr (List.mem_cons_of_mem _ h)

lemma pickBy_foldl_not_better {α : Type} (f : α → α → Bool)
    (hasym : ∀ a b, f a b = true → f b a = false)
    (hnt : ∀ a b c, f a b = false → f b c = false → f a c = false)
    (hirr : ∀ a, f a a = false) (ps : List α) (p : α) :
    f p (ps.foldl (fun best q => cond (f q best) q best) p) = false ∧
    ∀ x ∈ ps, f x (ps.foldl (fun best q => cond (f q best) q best) p) = false := by
  induction ps generalizing p with
  | nil =>
    refine ⟨hirr p, ?_⟩
    intro x hx
    exact absurd hx (List.not_mem_nil x)
  | cons q qs ih =>
    simp only [List.foldl_cons]
    cases hfq : f q p with
    | false =>
      simp only [cond_false]
      obtain ⟨h1, h2⟩ := ih p
      refine ⟨h1, ?_⟩
      intro x hx
      rcases List.mem_cons.mp hx with hxq | hxs
      · subst hxq
        exact hnt x p _ hfq h1
      · exact h2 x hxs
    | true =>
      simp only [cond_true]
      obtain ⟨h1, h2⟩ := ih q
      have hpq : f p q = false := hasym q p hfq
      refine ⟨hnt p q _ hpq h1, ?_⟩
      intro x hx
      rcases List.mem_cons.mp hx with hxq | hxs
      · subst hxq
        exact h1
      · exact h2 x hxs

lemma pickBy_spec {α : Type} (f : α → α → Bool)
    (hasym : ∀ a b, f a b = true → f b a = false)
    (hnt : ∀ a b c, f a b = false → f b c = false → f a c = false)
    (hirr : ∀ a, f a a = false) (l : List α) (r : α)
    (h : pickBy f l = some r) :
    r ∈ l ∧ ∀ x ∈ l, f x r = false := by
  cases l with
  | nil => exact absurd h (by simp [pickBy])
  | cons p ps =>
    have hr : ps.foldl (fun best q => cond (f q best) q best) p = r := by
      simpa [pickBy] using h
    constructor
    · rcases pickBy_foldl_mem f ps p with hm | hm
      · rw [← hr, hm]; exact List.mem_cons_self p ps
      · rw [← hr]; exact List.mem_cons_of_mem _ hm
    · intro x hx
      obtain ⟨h1, h2⟩ := pickBy_foldl_not_better f hasym hnt hirr ps p
      rcases List.mem_cons.mp hx with hxp | hxs
      · subst hxp; rw [← hr]; exact h1
      · rw [← hr]; exact h2 x hxs

lemma pickBy_isSome {α : Type} (f : α → α → Bool) (l : List α)
    (h : l ≠ []) : (pickBy f l).isSome = true := by
  cases l with
  | nil => exact absurd rfl h
  | cons p ps => simp [pickBy]

lemma amountLt_asymm (a b : PSMA) (h : amountLt a b = true) :
    amountLt b a = false := by
  simp only [amountLt, decide_eq_true_eq] at h
  simp only [amountLt, decide_eq_false_iff_not]
  omega

lemma amountLt_negtrans (a b c : PSMA) (h1 : amountLt a b = false)
    (h2 : amountLt b c = false) : amountLt a c = false := by
  simp only [amountLt, decide_eq_false_iff_not] at h1 h2 ⊢
  omega

lemma amountLt_irrefl (a : PSMA) : amountLt a a = false := by
  simp [amountLt]

lemma keyLex_asymm (a b : Nat × Int × Int) (h : keyLex a b) : ¬ keyLex b a := by
  obtain ⟨a1, a2, a3⟩ := a
  obtain ⟨b1, b2, b3⟩ := b
  simp only [keyLex] at h ⊢
  omega

lemma keyLex_negtrans (a b c : Nat × Int × Int) (h1 : ¬ keyLex a b)
    (h2 : ¬ keyLex b c) : ¬ keyLex a c := by
  obtain ⟨a1, a2, a3⟩ := a
  obtain ⟨b1, b2, b3⟩ := b
  obtain ⟨c1, c2, c3⟩ := c
  simp only [keyLex] at h1 h2 ⊢
  omega

lemma keyLex_irrefl (a : Nat × Int × Int) : ¬ keyLex a a := by
  obtain ⟨a1, a2, a3⟩ := a
  simp only [keyLex]
  omega

lemma rankBetter_asymm (rts : List RuleTypeRow) (cr : List (String × String))
    (a b : PSMA) (h : rankBetter rts cr a b = true) :
    rankBetter rts cr b a = false := by
  simp only [rankBetter, decide_eq_true_eq] at h
  simp only [rankBetter, decide_eq_false_iff_not]
  exact keyLex_asymm _ _ h

lemma rankBetter_negtrans (rts : List RuleTypeRow) (cr : List (String × String))
    (a b c : PSMA) (h1 : rankBetter rts cr a b = false)
    (h2 : rankBetter rts cr b c = false) : rankBetter rts cr a c = false := by
  simp only [rankBetter, decide_eq_false_iff_not] at h1 h2 ⊢
  exact keyLex_negtrans _ _ _ h1 h2

lemma rankBetter_irrefl (rts : List RuleTypeRow) (cr : List (String × String))
    (a : PSMA) : rankBetter rts cr a a = false := by
  simp only [rankBetter, decide_eq_false_iff_not]
  exact keyLex_irrefl _

lemma mem_calcCandidates (psmas : List PSMA) (ctx : PricingContext) (now : Int)
    (p : PSMA) :
    p ∈ calcCandidates psmas ctx now ↔
      p ∈ psmas ∧ p.currency_code = ctx.currency_code ∧
        ∃ pl, p.price_list = some pl ∧ isValid pl ctx now = true := by
  constructor
  · intro h
    obtain ⟨hmem, hpred⟩ := List.mem_filter.mp h
    rw [Bool.and_eq_true, decide_eq_true_eq] at hpred
    obtain ⟨hcur, hmatch⟩ := hpred
    refine ⟨hmem, hcur, ?_⟩
    cases hp : p.price_list with
    | none => rw [hp] at hmatch; exact absurd hmatch (by simp)
    | some pl =>
      rw [hp] at hmatch
      exact ⟨pl, rfl, hmatch⟩
  · rintro ⟨hmem, hcur, pl, hpl, hval⟩
    refine List.mem_filter.mpr ⟨hmem, ?_⟩
    rw [Bool.and_eq_true, decide_eq_true_eq]
    exact ⟨hcur, by rw [hpl]; exact hval⟩

lemma mem_origCandidates (psmas : List PSMA) (ctx : PricingContext) (p : PSMA) :
    p ∈ origCandidates psmas ctx ↔
      p ∈ psmas ∧ p.currency_code = ctx.currency_code ∧ p.price_list = none := by
  simp [origCandidates, List.mem_filter, Option.isNone_iff_eq_none]

lemma selectCalculated_some (psmas : List PSMA) (ctx : PricingContext)
    (now : Int) (c : PSMA) (h : selectCalculated psmas ctx now = some c) :
    c ∈ calcCandidates psmas ctx now ∧
      ∀ q ∈ calcCandidates psmas ctx now, c.amount ≤ q.amount := by
  obtain ⟨hmem, hmin⟩ :=
    pickBy_spec amountLt amountLt_asymm amountLt_negtrans amountLt_irrefl _ c h
  refine ⟨hmem, ?_⟩
  intro q hq
  have := hmin q hq
  simp only [amountLt, decide_eq_false_iff_not] at this
  omega

lemma find?_of_all_eq {α : Type} (l : List α) (a : α) (p : α → Bool)
    (hmem : a ∈ l) (hall : ∀ x ∈ l, x = a) (hp : p a = true) :
    l.find? p = some a := by
  cases l with
  | nil => exact absurd hmem (List.not_mem_nil a)
  | cons b bs =>
    have hb : b = a := hall b (List.mem_cons_self b bs)
    subst hb
    exact List.find?_cons_of_pos _ hp

lemma selectOriginal_ranked_eq (rts : List RuleTypeRow) (psmas : List PSMA)
    (ctx : PricingContext) (k : String × String) (rest : List (String × String))
    (hr : ctx.rules = k :: rest)
    (hex : ∀ x ∈ origCandidates psmas ctx, exactMatch ctx.rules x = false) :
    selectOriginal rts psmas ctx =
      pickBy (rankBetter rts ctx.rules)
        ((origCandidates psmas ctx).filter fun p =>
          decide (0 < matchedRuleCount ctx.rules p)) := by
  rw [hr] at hex ⊢
  unfold selectOriginal
  rw [hr]
  have hnone : (origCandidates psmas ctx).find? (exactMatch (k :: rest)) = none :=
    List.find?_eq_none.mpr fun x hx => by rw [hex x hx]; simp
  simp [selectOriginalAux, hnone]

lemma selectOriginal_ranked_spec (rts : List RuleTypeRow) (psmas : List PSMA)
    (ctx : PricingContext) (k : String × String) (rest : List (String × String))
    (c : PSMA) (hr : ctx.rules = k :: rest)
    (hex : ∀ x ∈ origCandidates psmas ctx, exactMatch ctx.rules x = false)
    (h : selectOriginal rts psmas ctx = some c) :
    c ∈ origCandidates psmas ctx ∧ 0 < matchedRuleCount ctx.rules c ∧
      ∀ q ∈ origCandidates psmas ctx, 0 < matchedRuleCount ctx.rules q →
        ¬ keyLex (rankKey rts ctx.rules q) (rankKey rts ctx.rules c) := by
  rw [selectOriginal_ranked_eq rts psmas ctx k rest hr hex] at h
  obtain ⟨hmem, hbest⟩ :=
    pickBy_spec (rankBetter rts ctx.rules) (rankBetter_asymm rts ctx.rules)
      (rankBetter_negtrans rts ctx.rules) (rankBetter_irrefl rts ctx.rules) _ c h
  obtain ⟨hcand, hpos⟩ := List.mem_filter.mp hmem
  rw [decide_eq_true_eq] at hpos
  refine ⟨hcand, hpos, ?_⟩
  intro q hq hqpos
  have hqmem : q ∈ (origCandidates psmas ctx).filter fun p =>
      decide (0 < matchedRuleCount ctx.rules p) :=
    List.mem_filter.mpr ⟨hq, by rw [decide_eq_true_eq]; exact hqpos⟩
  have := hbest q hqmem
  simp only [rankBetter, decide_eq_false_iff_not] at this
  exact this

/-- Rule type "Region" over context key `region_id` (worked example). -/
def exRtRegion : RuleTypeRow :=
  { id := "rt_region", name := "Region", rule_attribute := "region_id",
    default_priority := 0 }

/-- Rule type "City" over context key `city` (worked example). -/
def exRtCity : RuleTypeRow :=
  { id := "rt_city", name := "City", rule_attribute := "city",
    default_priority := 0 }

/-- The rule types of the worked example. -/
def exRts : List RuleTypeRow := [exRtRegion, exRtCity]

/-- Default money amount of the worked example: 500 EUR, no rules. -/
def exMa1 : PSMA :=
  { id := "ma_1", currency_code := "EUR", amount := 500, min_quantity := none,
    max_quantity := none, price_list := none, rules := [] }

/-- 400 EUR scoped by `region_id = PL` (worked example). -/
def exMa2 : PSMA :=
  { id := "ma_2", currency_code := "EUR", amount := 400, min_quantity := none,
    max_quantity := none, price_list := none,
    rules := [{ rule_attribute := "region_id", value := "PL", priority := 0 }] }

/-- 450 EUR scoped by `city = krakow` (worked example). -/
def exMa3 : PSMA :=
  { id := "ma_3", currency_code := "EUR", amount := 450, min_quantity := none,
    max_quantity := none, price_list := none,
    rules := [{ rule_attribute := "city", value := "krakow", priority := 0 }] }

/-- 500 EUR scoped by `city = warsaw` and `region_id = PL` (worked example). -/
def exMa4 : PSMA :=
  { id := "ma_4", currency_code := "EUR", amount := 500, min_quantity := none,
    max_quantity := none, price_list := none,
    rules := [{ rule_attribute := "city", value := "warsaw", priority := 0 },
              { rule_attribute := "region_id", value := "PL", priority := 0 }] }

/-- The standalone money amounts of the worked example's price set. -/
def exPsmasBase : List PSMA := [exMa1, exMa2, exMa3, exMa4]

/-- Active sale price list restricted to `region_id` in {PL}. -/
def exPlSale : PriceList :=
  { id := "pl_sale", status := PLStatus.active, type := PLType.sale,
    starts_at := none, ends_at := none, rules := [("region_id", ["PL"])] }

/-- 400 EUR belonging to the sale price list. -/
def exLa400 : PSMA :=
  { id := "pl_ma_1", currency_code := "EUR", amount := 400, min_quantity := none,
    max_quantity := none, price_list := some exPlSale, rules := [] }

/-- 450 EUR belonging to the sale price list. -/
def exLa450 : PSMA :=
  { id := "pl_ma_2", currency_code := "EUR", amount := 450, min_quantity := none,
    max_quantity := none, price_list := some exPlSale, rules := [] }

/-- The worked example's price set once the sale list is attached. -/
def exPsmasFull : List PSMA := [exMa1, exMa2, exMa3, exMa4, exLa400, exLa450]

/-- Active sale price list with no list rules (valid in every context). -/
def exPlOpen : PriceList :=
  { id := "pl_open", status := PLStatus.active, type := PLType.sale,
    starts_at := none, ends_at := none, rules := [] }

/-- 400 EUR belonging to the unrestricted open list. -/
def exOpen400 : PSMA :=
  { id := "ma_open", currency_code := "EUR", amount := 400, min_quantity := none,
    max_quantity := none, price_list := some exPlOpen, rules := [] }

/-- Active override price list with no list rules. -/
def exPlOverride : PriceList :=
  { id := "pl_ovr", status := PLStatus.active, type := PLType.override,
    starts_at := none, ends_at := none, rules := [] }

/-- 300 EUR belonging to the override list. -/
def exOvr300 : PSMA :=
  { id := "ma_ovr", currency_code := "EUR", amount := 300, min_quantity := none,
    max_quantity := none, price_list := some exPlOverride, rules := [] }

/-- Draft price list with no dates and no rules. -/
def exPlDraft : PriceList :=
  { id := "pl_draft", status := PLStatus.draft, type := PLType.sale,
    starts_at := none, ends_at := none, rules := [] }

/-- Context carrying only the currency. -/
def exCtx1 : PricingContext := { currency_code := "EUR", rules := [] }

/-- Context with the `region_id = PL` rule. -/
def exCtx2 : PricingContext :=
  { currency_code := "EUR", rules := [("region_id", "PL")] }

/-- Context with `region_id = PL` and `city = krakow`. -/
def exCtx3 : PricingContext :=
  { currency_code := "EUR",
    rules := [("region_id", "PL"), ("city", "krakow")] }

/-- Rule types for the priority-precedence scenario: the city rule type
carries the higher `default_priority`. -/
def exRtsPrio : List RuleTypeRow :=
  [ { id := "rt_region", name := "Region", rule_attribute := "region_id",
      default_priority := 0 }
  , { id := "rt_city", name := "City", rule_attribute := "city",
      default_priority := 9 } ]

/-- Candidate with one matched rule of priority 5 (low default priority). -/
def exB1 : PSMA :=
  { id := "b_1", currency_code := "EUR", amount := 100, min_quantity := none,
    max_quantity := none, price_list := none,
    rules := [{ rule_attribute := "region_id", value := "PL", priority := 5 }] }

/-- Candidate with one matched rule of priority 3 whose rule type has the
higher default priority 9. -/
def exB2 : PSMA :=
  { id := "b_2", currency_code := "EUR", amount := 200, min_quantity := none,
    max_quantity := none, price_list := none,
    rules := [{ rule_attribute := "city", value := "krakow", priority := 3 }] }

/-- Candidate with one matched rule (match-count scenario). -/
def exW1 : PSMA :=
  { id := "w_1", currency_code := "EUR", amount := 400, min_quantity := none,
    max_quantity := none, price_list := none,
    rules := [{ rule_attribute := "region_id", value := "PL", priority := 7 }] }

/-- Candidate with two matched rules and a third unmatched one, so it
partially matches but is no exact match. -/
def exW4 : PSMA :=
  { id := "w_4", currency_code := "EUR", amount := 500, min_quantity := none,
    max_quantity := none, price_list := none,
    rules := [{ rule_attribute := "region_id", value := "PL", priority := 0 },
              { rule_attribute := "city", value := "krakow", priority := 0 },
              { rule_attribute := "size", value := "L", priority := 0 }] }

/-- Money amount whose amount and quantity bounds are all 0. -/
def exZero : PSMA :=
  { id := "ma_zero", currency_code := "EUR", amount := 0,
    min_quantity := some 0, max_quantity := some 0, price_list := none,
    rules := [] }

/-- Price set whose only standalone EUR amount is the default one but
which also carries a valid price-list amount of 400. -/
def exPsmasC5 : List PSMA := [exMa1, exOpen400]

/-- A `rule_type` row over the `region_id` attribute. -/
def exRtA : RuleTypeRow :=
  { id := "rt_a", name := "Region", rule_attribute := "region_id",
    default_priority := 0 }

/-- A second, distinct `rule_type` row over the same `region_id`
attribute. -/
def exRtB : RuleTypeRow :=
  { id := "rt_b", name := "Region B", rule_attribute := "region_id",
    default_priority := 1 }

/-- Two `rule_type` rows sharing the `rule_attribute` value `region_id`. -/
def exDupRuleTypes : List RuleTypeRow := [exRtA, exRtB]

lemma assembledCalculated_of_selected (rts : List RuleTypeRow)
    (psmas : List PSMA) (ctx : PricingContext) (now : Int) (c : PSMA)
    (hsel : selectCalculated psmas ctx now = some c) :
    assembledCalculated rts psmas ctx now = some c := by
  simp [assembledCalculated, hsel]

lemma assembledOriginal_of_override (rts : List RuleTypeRow)
    (psmas : List PSMA) (ctx : PricingContext) (now : Int) (c : PSMA)
    (pl : PriceList) (hsel : selectCalculated psmas ctx now = some c)
    (hpl : c.price_list = some pl) (hty : pl.type = PLType.override) :
    assembledOriginal rts psmas ctx now = assembledCalculated rts psmas ctx now := by
  have hac := assembledCalculated_of_selected rts psmas ctx now c hsel
  simp [assembledOriginal, hac, hpl, hty]

/-- Claim C1: among the price set's money amounts whose currency equals
the context currency and that belong to a valid price list,
`selectCalculated` returns one with the numerically lowest amount; an
amount it selects always belongs to a valid price list, so money amounts
of an invalid price list (expired, not yet started, draft, or
rule-mismatched) are never candidates. -/
theorem selectCalculated_lowest_valid_list (psmas : List PSMA)
    (ctx : PricingContext) (now : Int) (c : PSMA)
    (h : selectCalculated psmas ctx now = some c) :
    c ∈ psmas ∧ c.currency_code = ctx.currency_code ∧
      (∃ pl, c.price_list = some pl ∧ isValid pl ctx now = true) ∧
      (∀ q ∈ psmas, q.currency_code = ctx.currency_code →
        ∀ plq, q.price_list = some plq → isValid plq ctx now = true →
          c.amount ≤ q.amount) ∧
      (∀ q ∈ calcCandidates psmas ctx now,
        ∃ pl, q.price_list = some pl ∧ isValid pl ctx now = true) := by
  obtain ⟨hmem, hmin⟩ := selectCalculated_some psmas ctx now c h
  obtain ⟨hc1, hc2, hc3⟩ := (mem_calcCandidates psmas ctx now c).mp hmem
  refine ⟨hc1, hc2, hc3, ?_, ?_⟩
  · intro q hq hcur plq hplq hval
    exact hmin q ((mem_calcCandidates psmas ctx now q).mpr ⟨hq, hcur, plq, hplq, hval⟩)
  · intro q hq
    exact ((mem_calcCandidates psmas ctx now q).mp hq).2.2

/-- Witness for C1 on the worked example with the sale price list: the
selected 400 EUR list amount is minimal and belongs to the valid list. -/
theorem selectCalculated_lowest_valid_list_witness :
    exLa400 ∈ exPsmasFull ∧ exLa400.amount ≤ exLa450.amount := by
  have h := selectCalculated_lowest_valid_list exPsmasFull exCtx3 0 exLa400 (by decide)
  exact ⟨h.1, h.2.2.2.1 exLa450 (by decide) rfl exPlSale rfl (by decide)⟩

/-- Claim C4: when the context has non-currency keys and some standalone
matching-currency amount's rule set exactly equals the non-currency
context entries (and it is the only such amount), `selectOriginal`
returns it, regardless of any partially matching candidates. -/
theorem selectOriginal_exact_match_wins (rts : List RuleTypeRow)
    (psmas : List PSMA) (ctx : PricingContext) (k : String × String)
    (rest : List (String × String)) (c : PSMA)
    (hr : ctx.rules = k :: rest)
    (hc : c ∈ origCandidates psmas ctx)
    (hcx : exactMatch ctx.rules c = true)
    (huniq : ∀ x ∈ origCandidates psmas ctx, exactMatch ctx.rules x = true → x = c) :
    selectOriginal rts psmas ctx = some c := by
  rw [hr] at hcx huniq
  unfold selectOriginal
  rw [hr]
  cases hf : (origCandidates psmas ctx).find? (exactMatch (k :: rest)) with
  | none =>
    exact absurd hcx (by simpa using List.find?_eq_none.mp hf c hc)
  | some d =>
    have hd : d = c := huniq d (List.mem_of_find?_eq_some hf) (List.find?_some hf)
    simp [selectOriginalAux, hf, hd]

/-- Witness for C4 on the worked example: with context
`region_id = PL`, the exactly matching 400 EUR amount is selected. -/
theorem selectOriginal_exact_match_wins_witness :
    selectOriginal exRts exPsmasBase exCtx2 = some exMa2 :=
  selectOriginal_exact_match_wins exRts exPsmasBase exCtx2 ("region_id", "PL")
    [] exMa2 rfl (by decide) (by decide) (by decide)

/-- Claim C6: when the selected calculated price belongs to a price list
of type `override`, every original field of the assembled result equals
the corresponding calculated field, whatever the standalone candidates
of the original-price selection are. -/
theorem assemble_override_forces_original (rts : List RuleTypeRow)
    (psmas : List PSMA) (psId : String) (ctx : PricingContext) (now : Int)
    (c : PSMA) (pl : PriceList)
    (hsel : selectCalculated psmas ctx now = some c)
    (hpl : c.price_list = some pl) (hty : pl.type = PLType.override) :
    (assemble rts psmas psId ctx now).original_amount =
      (assemble rts psmas psId ctx now).calculated_amount ∧
    (assemble rts psmas psId ctx now).original_money_amount_id =
      (assemble rts psmas psId ctx now).calculated_money_amount_id ∧
    (assemble rts psmas psId ctx now).original_price_list_id =
      (assemble rts psmas psId ctx now).calculated_price_list_id ∧
    (assemble rts psmas psId ctx now).original_price_list_type =
      (assemble rts psmas psId ctx now).calculated_price_list_type ∧
    (assemble rts psmas psId ctx now).is_original_price_price_list =
      (assemble rts psmas psId ctx now).is_calculated_price_price_list ∧
    (assemble rts psmas psId ctx now).original_min_quantity =
      (assemble rts psmas psId ctx now).calculated_min_quantity ∧
    (assemble rts psmas psId ctx now).original_max_quantity =
      (assemble rts psmas psId ctx now).calculated_max_quantity := by
  have heq := assembledOriginal_of_override rts psmas ctx now c pl hsel hpl hty
  simp [assemble, heq]

/-- Witness for C6: with an override-list amount of 300 EUR and a
standalone default of 500 EUR, the assembled original equals the
calculated price. -/
theorem assemble_override_forces_original_witness :
    (assemble exRts [exMa1, exOvr300] "ps_1" exCtx1 0).original_amount =
      (assemble exRts [exMa1, exOvr300] "ps_1" exCtx1 0).calculated_amount ∧
    (assemble exRts [exMa1, exOvr300] "ps_1" exCtx1 0).original_amount = some 300 := by
  have h := assemble_override_forces_original exRts [exMa1, exOvr300] "ps_1"
    exCtx1 0 exOvr300 exPlOverride (by decide) rfl rfl
  exact ⟨h.1, by decide⟩

/-- Claim C7: `isValid` is false whenever the price list's status differs
from `active`; a draft list is never the source of the selected
calculated price, independent of its dates and rules. -/
theorem isValid_false_of_not_active (pl : PriceList) (ctx : PricingContext)
    (now : Int) (h : pl.status ≠ PLStatus.active) :
    isValid pl ctx now = false ∧
    ∀ psmas c, selectCalculated psmas ctx now = some c →
      c.price_list ≠ some pl := by
  have hfalse : isValid pl ctx now = false := by
    simp [isValid, decide_eq_false h]
  refine ⟨hfalse, ?_⟩
  intro psmas c hsel hplc
  obtain ⟨hmem, _⟩ := selectCalculated_some psmas ctx now c hsel
  obtain ⟨_, _, pl', hpl', hval⟩ := (mem_calcCandidates psmas ctx now c).mp hmem
  rw [hplc] at hpl'
  injection hpl' with h'
  rw [← h'] at hval
  rw [hval] at hfalse
  exact Bool.noConfusion hfalse

/-- Witness for C7: the draft list is invalid and is not the source of
the calculated price selected on the worked example. -/
theorem isValid_false_of_not_active_witness :
    isValid exPlDraft exCtx3 0 = false ∧
    exLa400.price_list ≠ some exPlDraft := by
  have h := isValid_false_of_not_active exPlDraft exCtx3 0 (by decide)
  exact ⟨h.1, h.2 exPsmasFull exLa400 (by decide)⟩

/-- Claim C10: a selected calculated (or original) money amount whose
numeric amount is 0 is reported with a `null` amount by the assembled
result, indistinguishable from an absent price, and the same collapsing
applies to `min_quantity` and `max_quantity` equal to 0. -/
theorem assemble_zero_collapses_to_null (rts : List RuleTypeRow)
    (psmas : List PSMA) (psId : String) (ctx : PricingContext) (now : Int)
    (c o : PSMA) :
    (assembledCalculated rts psmas ctx now = some c →
      (c.amount = 0 → (assemble rts psmas psId ctx now).calculated_amount = none) ∧
      (c.min_quantity = some 0 →
        (assemble rts psmas psId ctx now).calculated_min_quantity = none) ∧
      (c.max_quantity = some 0 →
        (assemble rts psmas psId ctx now).calculated_max_quantity = none)) ∧
    (assembledOriginal rts psmas ctx now = some o →
      (o.amount = 0 → (assemble rts psmas psId ctx now).original_amount = none) ∧
      (o.min_quantity = some 0 →
        (assemble rts psmas psId ctx now).original_min_quantity = none) ∧
      (o.max_quantity = some 0 →
        (assemble rts psmas psId ctx now).original_max_quantity = none)) := by
  constructor
  · intro hc
    refine ⟨?_, ?_, ?_⟩ <;> intro h0 <;> simp [assemble, hc, h0, jsNumOrNull]
  · intro ho
    refine ⟨?_, ?_, ?_⟩ <;> intro h0 <;> simp [assemble, ho, h0, jsNumOrNull]

/-- Witness for C10: a price set whose only amount is 0 EUR with zero
quantity bounds yields `null` amounts and bounds in the result. -/
theorem assemble_zero_collapses_to_null_witness :
    (assemble exRts [exZero] "ps_1" exCtx1 0).calculated_amount = none ∧
    (assemble exRts [exZero] "ps_1" exCtx1 0).calculated_min_quantity = none ∧
    (assemble exRts [exZero] "ps_1" exCtx1 0).calculated_max_quantity = none ∧
    (assemble exRts [exZero] "ps_1" exCtx1 0).original_amount = none := by
  have h := assemble_zero_collapses_to_null exRts [exZero] "ps_1" exCtx1 0 exZero exZero
  have hc := h.1 (by decide)
  have ho := h.2 (by decide)
  exact ⟨hc.1 rfl, hc.2.1 rfl, hc.2.2 rfl, ho.1 rfl⟩

lemma keyLex_rankKey_iff (rts : List RuleTypeRow)
    (cr : List (String × String)) (a b : PSMA) :
    keyLex (rankKey rts cr a) (rankKey rts cr b) ↔
      matchedRuleCount cr b < matchedRuleCount cr a ∨
        (matchedRuleCount cr a = matchedRuleCount cr b ∧
          (maxMatchedPriority cr b < maxMatchedPriority cr a ∨
            (maxMatchedPriority cr a = maxMatchedPriority cr b ∧
              maxMatchedDefaultPriority rts cr b <
                maxMatchedDefaultPriority rts cr a))) :=
  Iff.rfl

/-- Claim C2: in the ranked partial-match policy, among candidates with
equal matched-rule counts the selected amount maximizes the rule-level
`priority`, whatever the rule types' `default_priority` values are; and
the ranking comparator puts a candidate with equal matched count and
strictly higher rule priority above the other regardless of either
default priority, so rule priority is compared before rule-type default
priority. -/
theorem selectOriginal_priority_before_default (rts : List RuleTypeRow)
    (psmas : List PSMA) (ctx : PricingContext) (k : String × String)
    (rest : List (String × String)) (c q p1 p2 : PSMA)
    (hr : ctx.rules = k :: rest)
    (hex : ∀ x ∈ origCandidates psmas ctx, exactMatch ctx.rules x = false) :
    (selectOriginal rts psmas ctx = some c →
      q ∈ origCandidates psmas ctx →
      matchedRuleCount ctx.rules q = matchedRuleCount ctx.rules c →
      maxMatchedPriority ctx.rules q ≤ maxMatchedPriority ctx.rules c) ∧
    (matchedRuleCount ctx.rules p1 = matchedRuleCount ctx.rules p2 →
      maxMatchedPriority ctx.rules p2 < maxMatchedPriority ctx.rules p1 →
      rankBetter rts ctx.rules p1 p2 = true) := by
  constructor
  · intro h hq hcnt
    obtain ⟨hcmem, hcpos, hbest⟩ :=
      selectOriginal_ranked_spec rts psmas ctx k rest c hr hex h
    have hqpos : 0 < matchedRuleCount ctx.rules q := by omega
    have hnb := hbest q hq hqpos
    rw [keyLex_rankKey_iff] at hnb
    omega
  · intro hcnt hprio
    simp only [rankBetter, decide_eq_true_eq, keyLex_rankKey_iff]
    omega

/-- Witness for C2: two candidates each matching one context rule; the
one with rule priority 5 is selected over the one with rule priority 3
although the latter's rule type has default priority 9. -/
theorem selectOriginal_priority_before_default_witness :
    maxMatchedPriority exCtx3.rules exB2 ≤ maxMatchedPriority exCtx3.rules exB1 ∧
    rankBetter exRtsPrio exCtx3.rules exB1 exB2 = true := by
  have h := selectOriginal_priority_before_default exRtsPrio [exB2, exB1]
    exCtx3 ("region_id", "PL") [("city", "krakow")] exB1 exB2 exB1 exB2
    rfl (by decide)
  exact ⟨h.1 (by decide) (by decide) (by decide), h.2 (by decide) (by decide)⟩

/-- Claim C3: in the ranked partial-match policy the selected amount has
a maximal matched-rule count among all standalone candidates and a
nonzero one (zero-match candidates are discarded); and the comparator
ranks any candidate with strictly more matched rules above one with
fewer, irrespective of either candidate's priority values. -/
theorem selectOriginal_more_matches_outrank (rts : List RuleTypeRow)
    (psmas : List PSMA) (ctx : PricingContext) (k : String × String)
    (rest : List (String × String)) (c : PSMA)
    (hr : ctx.rules = k :: rest)
    (hex : ∀ x ∈ origCandidates psmas ctx, exactMatch ctx.rules x = false)
    (h : selectOriginal rts psmas ctx = some c) :
    0 < matchedRuleCount ctx.rules c ∧
    (∀ q ∈ origCandidates psmas ctx,
      matchedRuleCount ctx.rules q ≤ matchedRuleCount ctx.rules c) ∧
    (∀ p1 p2 : PSMA, matchedRuleCount ctx.rules p2 < matchedRuleCount ctx.rules p1 →
      rankBetter rts ctx.rules p1 p2 = true) := by
  obtain ⟨hcmem, hcpos, hbest⟩ :=
    selectOriginal_ranked_spec rts psmas ctx k rest c hr hex h
  refine ⟨hcpos, ?_, ?_⟩
  · intro q hq
    by_cases hqpos : 0 < matchedRuleCount ctx.rules q
    · have hnb := hbest q hq hqpos
      rw [keyLex_rankKey_iff] at hnb
      omega
    · omega
  · intro p1 p2 hcnt
    simp only [rankBetter, decide_eq_true_eq, keyLex_rankKey_iff]
    omega

/-- Witness for C3: the candidate matching two context rules is selected
over the candidate matching one, whose rule priority 7 is higher. -/
theorem selectOriginal_more_matches_outrank_witness :
    matchedRuleCount exCtx3.rules exW1 ≤ matchedRuleCount exCtx3.rules exW4 ∧
    rankBetter exRts exCtx3.rules exW4 exW1 = true := by
  have h := selectOriginal_more_matches_outrank exRts [exW1, exW4] exCtx3
    ("region_id", "PL") [("city", "krakow")] exW4 rfl (by decide) (by decide)
  exact ⟨h.2.1 exW1 (by decide), h.2.2 exW4 exW1 (by decide)⟩

/-- Claim C5 counterexample: a price set whose only standalone EUR amount
is the default 500 EUR amount but which also carries a valid open price
list with a 400 EUR amount; with a currency-only context the assembled
calculated amount is 400, not the default amount 500, refuting the claim
that both prices always equal the default amount under these premises. -/
theorem assemble_default_only_standalone_counterexample :
    (exPsmasC5.all fun q =>
      decide (q.currency_code = exCtx1.currency_code ∧ q.price_list = none →
        q = exMa1)) = true ∧
    exMa1.rules = [] ∧ exMa1.amount = 500 ∧ exCtx1.rules = [] ∧
    (assemble exRts exPsmasC5 "ps_1" exCtx1 0).original_amount = some 500 ∧
    (assemble exRts exPsmasC5 "ps_1" exCtx1 0).calculated_amount = some 400 := by
  decide

/-- Claim C5 (amended): when additionally no money amount of the price
set belongs to a valid price list in the context currency, both the
calculated and the original price equal the default standalone amount. -/
theorem assemble_default_only (rts : List RuleTypeRow) (psmas : List PSMA)
    (psId : String) (ctx : PricingContext) (now : Int) (p : PSMA)
    (hr : ctx.rules = [])
    (hmem : p ∈ psmas) (hcur : p.currency_code = ctx.currency_code)
    (hsl : p.price_list = none) (hrules : p.rules = [])
    (honly : ∀ q ∈ psmas, q.currency_code = ctx.currency_code →
      (q.price_list = none → q = p) ∧
      ∀ pl, q.price_list = some pl → isValid pl ctx now = false) :
    selectCalculated psmas ctx now = none ∧
    selectOriginal rts psmas ctx = some p ∧
    (assemble rts psmas psId ctx now).calculated_amount = jsNumOrNull (some p.amount) ∧
    (assemble rts psmas psId ctx now).original_amount = jsNumOrNull (some p.amount) ∧
    (assemble rts psmas psId ctx now).calculated_money_amount_id = jsStrOrNull (some p.id) ∧
    (assemble rts psmas psId ctx now).original_money_amount_id = jsStrOrNull (some p.id) := by
  have hcalc : calcCandidates psmas ctx now = [] := by
    unfold calcCandidates
    rw [List.filter_eq_nil_iff]
    intro q hq
    intro hpred
    rw [Bool.and_eq_true, decide_eq_true_eq] at hpred
    obtain ⟨hcurq, hmatch⟩ := hpred
    cases hql : q.price_list with
    | none => rw [hql] at hmatch; exact absurd hmatch (by simp)
    | some pl =>
      rw [hql] at hmatch
      simp at hmatch
      have := (honly q hq hcurq).2 pl hql
      rw [hmatch] at this
      exact Bool.noConfusion this
  have hnone : selectCalculated psmas ctx now = none := by
    rw [selectCalculated, hcalc]
    rfl
  have hpmem : p ∈ origCandidates psmas ctx :=
    (mem_origCandidates psmas ctx p).mpr ⟨hmem, hcur, hsl⟩
  have hall : ∀ x ∈ origCandidates psmas ctx, x = p := by
    intro x hx
    obtain ⟨hxm, hxc, hxn⟩ := (mem_origCandidates psmas ctx x).mp hx
    exact (honly x hxm hxc).1 hxn
  have hfind : (origCandidates psmas ctx).find? (fun q => q.rules.isEmpty) = some p :=
    find?_of_all_eq _ p _ hpmem hall (by rw [hrules]; rfl)
  have horig : selectOriginal rts psmas ctx = some p := by
    unfold selectOriginal
    rw [hr]
    simpa [selectOriginalAux] using hfind
  have hac : assembledCalculated rts psmas ctx now = some p := by
    simp [assembledCalculated, hnone, horig]
  have hao : assembledOriginal rts psmas ctx now = some p := by
    simp [assembledOriginal, hac, hsl, horig]
  refine ⟨hnone, horig, ?_, ?_, ?_, ?_⟩ <;> simp [assemble, hac, hao]

/-- Witness for the amended C5: a price set holding only the default
500 EUR amount resolves both prices to it. -/
theorem assemble_default_only_witness :
    selectCalculated [exMa1] exCtx1 0 = none ∧
    selectOriginal exRts [exMa1] exCtx1 = some exMa1 ∧
    (assemble exRts [exMa1] "ps_1" exCtx1 0).calculated_amount =
      jsNumOrNull (some exMa1.amount) := by
  have h := assemble_default_only exRts [exMa1] "ps_1" exCtx1 0 exMa1
    rfl (by decide) rfl rfl rfl (by decide)
  exact ⟨h.1, h.2.1, h.2.2.1⟩

/-- Claim C8: the batch call returns exactly one result per requested
price-set id, in request order, each computed solely from that id's
data; an id with no resolvable data yields a result whose calculated and
original fields are all absent, without affecting the other ids. -/
theorem calculatePrices_batch (rts : List RuleTypeRow)
    (db : List (String × List PSMA)) (ids : List String)
    (ctx : PricingContext) (now : Int) :
    (calculatePrices rts db ids ctx now).length = ids.length ∧
    (∀ i (h1 : i < ids.length)
        (h2 : i < (calculatePrices rts db ids ctx now).length),
      (calculatePrices rts db ids ctx now).get ⟨i, h2⟩ =
        assemble rts ((db.lookup (ids.get ⟨i, h1⟩)).getD [])
          (ids.get ⟨i, h1⟩) ctx now ∧
      ((calculatePrices rts db ids ctx now).get ⟨i, h2⟩).id = ids.get ⟨i, h1⟩) ∧
    (∀ psId, (assemble rts [] psId ctx now).id = psId ∧
      allAbsent (assemble rts [] psId ctx now) = true) := by
  have hso : selectOriginal rts [] ctx = none := by
    cases hr : ctx.rules with
    | nil => simp [selectOriginal, selectOriginalAux, origCandidates, hr]
    | cons k rest =>
      simp [selectOriginal, selectOriginalAux, origCandidates, hr, pickBy]
  have hempty : ∀ psId, (assemble rts [] psId ctx now).id = psId ∧
      allAbsent (assemble rts [] psId ctx now) = true := by
    intro psId
    have hsc : selectCalculated [] ctx now = none := rfl
    have hac : assembledCalculated rts [] ctx now = none := by
      simp [assembledCalculated, hsc, hso]
    have hao : assembledOriginal rts [] ctx now = none := by
      simp [assembledOriginal, hac, hso]
    constructor
    · rfl
    · simp [assemble, allAbsent, hac, hao, jsNumOrNull, jsStrOrNull]
  refine ⟨by simp [calculatePrices], ?_, hempty⟩
  intro i h1 h2
  have hmap : (calculatePrices rts db ids ctx now).get ⟨i, h2⟩ =
      assemble rts ((db.lookup (ids.get ⟨i, h1⟩)).getD [])
        (ids.get ⟨i, h1⟩) ctx now := by
    show (ids.map _).get ⟨i, h2⟩ = _
    rw [List.get_map]
  refine ⟨hmap, ?_⟩
  rw [hmap]
  rfl

/-- Witness for C8: a two-id batch where the second id has no data still
returns two results, the second one empty. -/
theorem calculatePrices_batch_witness :
    (calculatePrices exRts [("ps_1", exPsmasBase)] ["ps_1", "ps_x"] exCtx1 0).length =
      (["ps_1", "ps_x"] : List String).length ∧
    allAbsent (assemble exRts [] "ps_x" exCtx1 0) = true ∧
    ((calculatePrices exRts [("ps_1", exPsmasBase)] ["ps_1", "ps_x"] exCtx1 0).get
      ⟨1, by decide⟩).id = "ps_x" := by
  have h := calculatePrices_batch exRts [("ps_1", exPsmasBase)]
    ["ps_1", "ps_x"] exCtx1 0
  exact ⟨h.1, (h.2.2 "ps_x").2, (h.2.1 1 (by decide) (by decide)).2⟩

/-- Claim C9 counterexample: a snapshot with two distinct `rule_type`
rows sharing the `rule_attribute` value `region_id` satisfies every
uniqueness constraint the schema declares for the table, so uniqueness
of `rule_attribute` is not guaranteed by the schema's reference data. -/
theorem ruleType_attribute_unique_counterexample :
    ruleTypeSchemaValid exDupRuleTypes = true ∧
    exRtA ∈ exDupRuleTypes ∧ exRtB ∈ exDupRuleTypes ∧
    exRtA ≠ exRtB ∧ exRtA.rule_attribute = exRtB.rule_attribute := by
  decide

/-- Claim C9 (amended): the schema's index on `rule_type.rule_attribute`
is declared non-unique (only the primary key on `id` is unique), so a
schema-valid snapshot may hold several rule types with the same
`rule_attribute` and a context key may map to more than one rule type. -/
theorem ruleType_attribute_index_not_unique :
    (ruleTypeIndexes.all fun idx =>
      decide (idx.columnNames = ["rule_attribute"] → idx.unique = false)) = true ∧
    (ruleTypeIndexes.any fun idx =>
      decide (idx.keyName = "IDX_rule_type_rule_attribute" ∧
        idx.columnNames = ["rule_attribute"] ∧ idx.unique = false ∧
        idx.primary = false)) = true ∧
    (ruleTypeIndexes.all fun idx =>
      decide (idx.unique = true → idx.columnNames = ["id"])) = true ∧
    ruleTypeSchemaValid exDupRuleTypes = true ∧
    exRtA.rule_attribute = exRtB.rule_attribute ∧ exRtA ≠ exRtB := by
  decide

end Pricing
